import Mathlib

/-!
# Swaption pricing with the Svensson curve: embedding of `Main.cpp`

The program is a pipeline of free functions over `double` and `int`.  The
functions are embedded generically over a field `α` of numbers together with
the four `<cmath>` functions they call; the theorems read the arithmetic over
the real numbers through `realMath`.  The `int` loop counter is a 32-bit
two's complement integer, modelled as an `Int` that wraps modulo `2^32`; the
loops take a fuel argument and return `none` when the fuel runs out.
`loopCounterValues` lists the counter values with which a loop body runs.  The
program has no error path: the `...Outcome` definitions record that a call
returns its value, in the vocabulary of the error taxonomy of the specification.
-/

namespace Swaption

/-- The functions of `<cmath>` called by the program, over a carrier `α`. -/
structure CMath (α : Type) where
  exp : α → α
  log : α → α
  sqrt : α → α
  erf : α → α

/-- Smallest value of a 32-bit `int`. -/
def INT_MIN : Int := -2147483648

/-- Largest value of a 32-bit `int`. -/
def INT_MAX : Int := 2147483647

/-- The 32-bit two's complement `int` that represents `x` modulo `2^32`. -/
def wrapInt (x : Int) : Int := (x + 2147483648) % 4294967296 - 2147483648

section Program

variable {α : Type} [Field α]

/-- Svensson spot rate, `Main.cpp` lines 7-13. -/
def calculateSpotRate (m : CMath α) (t beta0 beta1 beta2 beta3 tau1 tau2 : α) : α :=
  let term1 := beta0
  let term2 := beta1 * (1 - m.exp (-t / tau1)) / (t / tau1)
  let term3 := beta2 * ((1 - m.exp (-t / tau1)) / (t / tau1) - m.exp (-t / tau1))
  let term4 := beta3 * ((1 - m.exp (-t / tau2)) / (t / tau2) - m.exp (-t / tau2))
  term1 + term2 + term3 + term4

/-- Discount factor, `Main.cpp` lines 16-18. -/
def calculateDiscountFactor (m : CMath α) (spotRate t : α) : α :=
  m.exp (-spotRate * t)

/-- The `for (int t = 1; t <= swapMaturity; ++t)` loop of `calculateFixedLegPV`,
started at counter `t` with accumulator `fixedLegPV`; one unit of fuel per
evaluation of the loop condition. -/
def fixedLegLoop (m : CMath α) (notional fixedRate : α) (swapMaturity : Int)
    (beta0 beta1 beta2 beta3 tau1 tau2 : α) : Nat → Int → α → Option α
  | 0, _, _ => none
  | fuel + 1, t, fixedLegPV =>
    if t ≤ swapMaturity then
      let spotRate := calculateSpotRate m (t : α) beta0 beta1 beta2 beta3 tau1 tau2
      let discountFactor := calculateDiscountFactor m spotRate (t : α)
      fixedLegLoop m notional fixedRate swapMaturity beta0 beta1 beta2 beta3 tau1 tau2
        fuel (wrapInt (t + 1)) (fixedLegPV + notional * fixedRate * discountFactor)
    else some fixedLegPV

/-- Present value of the fixed leg, `Main.cpp` lines 21-31. -/
def calculateFixedLegPV (m : CMath α) (fuel : Nat) (notional fixedRate : α) (swapMaturity : Int)
    (beta0 beta1 beta2 beta3 tau1 tau2 : α) : Option α :=
  fixedLegLoop m notional fixedRate swapMaturity beta0 beta1 beta2 beta3 tau1 tau2 fuel 1 0

/-- The `for (int t = 1; t <= swapMaturity; ++t)` loop of `calculateFloatingLegPV`. -/
def floatingLegLoop (m : CMath α) (notional : α) (swapMaturity : Int)
    (beta0 beta1 beta2 beta3 tau1 tau2 : α) : Nat → Int → α → Option α
  | 0, _, _ => none
  | fuel + 1, t, floatingLegPV =>
    if t ≤ swapMaturity then
      let spotRate := calculateSpotRate m (t : α) beta0 beta1 beta2 beta3 tau1 tau2
      let discountFactor := calculateDiscountFactor m spotRate (t : α)
      floatingLegLoop m notional swapMaturity beta0 beta1 beta2 beta3 tau1 tau2
        fuel (wrapInt (t + 1)) (floatingLegPV + notional * discountFactor)
    else some floatingLegPV

/-- Present value of the floating leg, `Main.cpp` lines 34-44. -/
def calculateFloatingLegPV (m : CMath α) (fuel : Nat) (notional : α) (swapMaturity : Int)
    (beta0 beta1 beta2 beta3 tau1 tau2 : α) : Option α :=
  floatingLegLoop m notional swapMaturity beta0 beta1 beta2 beta3 tau1 tau2 fuel 1 0

/-- Forward swap rate, `Main.cpp` lines 47-51: both legs are valued, then divided. -/
def calculateForwardSwapRate (m : CMath α) (fuel : Nat) (notional : α) (swapMaturity : Int)
    (beta0 beta1 beta2 beta3 tau1 tau2 : α) : Option α :=
  match calculateFixedLegPV m fuel notional 1 swapMaturity beta0 beta1 beta2 beta3 tau1 tau2 with
  | none => none
  | some fixedLegPV =>
    match calculateFloatingLegPV m fuel notional swapMaturity beta0 beta1 beta2 beta3 tau1 tau2 with
    | none => none
    | some floatingLegPV => some (floatingLegPV / fixedLegPV)

/-- Black swaption price, `Main.cpp` lines 54-66. -/
def calculateSwaptionPrice (m : CMath α) (notional strikeRate forwardSwapRate maturity volatility : α)
    (isPayerSwaption : Bool) : α :=
  let d1 := (m.log (forwardSwapRate / strikeRate) + 0.5 * volatility * volatility * maturity)
    / (volatility * m.sqrt maturity)
  let d2 := d1 - volatility * m.sqrt maturity
  let nd1 := 0.5 * (1.0 + m.erf (d1 / m.sqrt 2.0))
  let nd2 := 0.5 * (1.0 + m.erf (d2 / m.sqrt 2.0))
  if isPayerSwaption then
    notional * (forwardSwapRate * nd1 - strikeRate * nd2)
  else
    notional * (strikeRate * (1.0 - nd2) - forwardSwapRate * (1.0 - nd1))

/-- The value `main` computes and prints, `Main.cpp` lines 68-96. -/
def main (m : CMath α) (fuel : Nat) : Option α :=
  let notional : α := 1000000.0
  let strikeRate : α := 0.05
  let maturity : α := 2.0
  let volatility : α := 0.2
  let isPayerSwaption := true
  let swapMaturity : Int := 5
  let beta0 : α := 0.02
  let beta1 : α := -0.01
  let beta2 : α := 0.03
  let beta3 : α := -0.02
  let tau1 : α := 2.0
  let tau2 : α := 10.0
  match calculateForwardSwapRate m fuel notional swapMaturity beta0 beta1 beta2 beta3 tau1 tau2 with
  | none => none
  | some forwardSwapRate =>
    some (calculateSwaptionPrice m notional strikeRate forwardSwapRate maturity volatility
      isPayerSwaption)

/-- The amount `calculateFixedLegPV` adds to its accumulator at period `t`
(`Main.cpp` lines 25-27). -/
def fixedCashFlow (m : CMath α) (notional fixedRate beta0 beta1 beta2 beta3 tau1 tau2 : α)
    (t : Int) : α :=
  notional * fixedRate *
    calculateDiscountFactor m (calculateSpotRate m (t : α) beta0 beta1 beta2 beta3 tau1 tau2) (t : α)

/-- The amount `calculateFloatingLegPV` adds to its accumulator at period `t`
(`Main.cpp` lines 38-40). -/
def floatingCashFlow (m : CMath α) (notional beta0 beta1 beta2 beta3 tau1 tau2 : α)
    (t : Int) : α :=
  notional *
    calculateDiscountFactor m (calculateSpotRate m (t : α) beta0 beta1 beta2 beta3 tau1 tau2) (t : α)

/-- The pipeline of `main` (`Main.cpp` lines 87-91) with the constants of `main`
as parameters: the forward swap rate is computed, then the swaption is priced. -/
def swaptionPipeline (m : CMath α) (fuel : Nat) (notional strikeRate maturity volatility : α)
    (isPayerSwaption : Bool) (swapMaturity : Int) (beta0 beta1 beta2 beta3 tau1 tau2 : α) :
    Option α :=
  match calculateForwardSwapRate m fuel notional swapMaturity beta0 beta1 beta2 beta3 tau1 tau2 with
  | none => none
  | some forwardSwapRate =>
    some (calculateSwaptionPrice m notional strikeRate forwardSwapRate maturity volatility
      isPayerSwaption)

end Program

/-- The values of the counter `t` with which the body of the loop
`for (int t = 1; t <= swapMaturity; ++t)` runs, and so the arguments `t` of the
calls of `calculateSpotRate`, during the first `fuel` evaluations of the loop
condition, the counter starting at `t`. Both legs have this loop. -/
def loopCounterValues (swapMaturity : Int) : Nat → Int → List Int
  | 0, _ => []
  | fuel + 1, t =>
    if t ≤ swapMaturity then t :: loopCounterValues swapMaturity fuel (wrapInt (t + 1))
    else []

/-! ## The real-number reading of `<cmath>` -/

/-- The error function over the reals: `erf x = 2/√π · ∫₀ˣ exp (-s²) ds`. -/
noncomputable def erf (x : ℝ) : ℝ :=
  2 / Real.sqrt Real.pi * ∫ s in (0 : ℝ)..x, Real.exp (-s ^ 2)

/-- The lower Gaussian tail `∫_{-∞}^a exp (-s²) ds`. -/
noncomputable def lowerTail (a : ℝ) : ℝ := ∫ s in Set.Iic a, Real.exp (-s ^ 2)

/-- The `<cmath>` functions read over the real numbers. -/
noncomputable def realMath : CMath ℝ where
  exp := Real.exp
  log := Real.log
  sqrt := Real.sqrt
  erf := erf

/-! ## The formulas of the specification -/

/-- The function `g(x) = (1 - e^(-x)) / x` of the spot-rate formula. -/
noncomputable def specG (x : ℝ) : ℝ := (1 - Real.exp (-x)) / x

/-- The spot-rate formula as the specification writes it. -/
noncomputable def specSpotRate (t beta0 beta1 beta2 beta3 tau1 tau2 : ℝ) : ℝ :=
  beta0 + beta1 * specG (t / tau1) + beta2 * (specG (t / tau1) - Real.exp (-(t / tau1)))
    + beta3 * (specG (t / tau2) - Real.exp (-(t / tau2)))

/-- The quantity `d1 = (ln(F/K) + σ²T/2) / (σ√T)` of the Black formula. -/
noncomputable def specD1 (K F T sigma : ℝ) : ℝ :=
  (Real.log (F / K) + sigma ^ 2 * T / 2) / (sigma * Real.sqrt T)

/-- The quantity `d2 = d1 - σ√T` of the Black formula. -/
noncomputable def specD2 (K F T sigma : ℝ) : ℝ :=
  specD1 K F T sigma - sigma * Real.sqrt T

/-- The standard normal distribution function `N(x) = 0.5·(1 + erf(x/√2))`. -/
noncomputable def specN (x : ℝ) : ℝ := 0.5 * (1 + erf (x / Real.sqrt 2))

/-! ## The 32-bit loop counter -/

/-- A value inside the `int` range is its own 32-bit representative. -/
theorem wrapInt_of_inRange (x : Int) (h1 : INT_MIN ≤ x) (h2 : x ≤ INT_MAX) : wrapInt x = x := by
  unfold wrapInt; unfold INT_MIN at h1; unfold INT_MAX at h2; omega

/-- A wrapped value never exceeds `INT_MAX`. -/
theorem wrapInt_le_INT_MAX (x : Int) : wrapInt x ≤ INT_MAX := by
  unfold wrapInt INT_MAX; omega

/-- A wrapped value is never below `INT_MIN`. -/
theorem INT_MIN_le_wrapInt (x : Int) : INT_MIN ≤ wrapInt x := by
  unfold wrapInt INT_MIN; omega

/-- The periods `t..M` are the period `t` and the periods `t+1..M`. -/
theorem Icc_int_eq_insert (t M : Int) (h : t ≤ M) :
    Finset.Icc t M = insert t (Finset.Icc (t + 1) M) := by
  ext i
  simp only [Finset.mem_Icc, Finset.mem_insert]
  omega

section Loops

variable {α : Type} [Field α] (m : CMath α) (notional fixedRate : α) (swapMaturity : Int)
  (beta0 beta1 beta2 beta3 tau1 tau2 : α)

/-- One evaluation of the loop condition of `calculateFixedLegPV`. -/
theorem fixedLegLoop_succ (fuel : Nat) (t : Int) (acc : α) :
    fixedLegLoop m notional fixedRate swapMaturity beta0 beta1 beta2 beta3 tau1 tau2 (fuel + 1) t acc
      = if t ≤ swapMaturity then
          fixedLegLoop m notional fixedRate swapMaturity beta0 beta1 beta2 beta3 tau1 tau2 fuel
            (wrapInt (t + 1))
            (acc + fixedCashFlow m notional fixedRate beta0 beta1 beta2 beta3 tau1 tau2 t)
        else some acc := rfl

/-- One evaluation of the loop condition of `calculateFloatingLegPV`. -/
theorem floatingLegLoop_succ (fuel : Nat) (t : Int) (acc : α) :
    floatingLegLoop m notional swapMaturity beta0 beta1 beta2 beta3 tau1 tau2 (fuel + 1) t acc
      = if t ≤ swapMaturity then
          floatingLegLoop m notional swapMaturity beta0 beta1 beta2 beta3 tau1 tau2 fuel
            (wrapInt (t + 1))
            (acc + floatingCashFlow m notional beta0 beta1 beta2 beta3 tau1 tau2 t)
        else some acc := rfl

/-- The fixed-leg loop started at `t` exits with the accumulator plus the cash
flows of the periods `t..swapMaturity`, when the counter cannot overflow. -/
theorem fixedLegLoop_eq_sum (hM : swapMaturity < INT_MAX) :
    ∀ (n fuel : Nat) (t : Int) (acc : α), INT_MIN ≤ t →
      (swapMaturity + 1 - t).toNat = n → n < fuel →
      fixedLegLoop m notional fixedRate swapMaturity beta0 beta1 beta2 beta3 tau1 tau2 fuel t acc
        = some (acc + ∑ i in Finset.Icc t swapMaturity,
            fixedCashFlow m notional fixedRate beta0 beta1 beta2 beta3 tau1 tau2 i) := by
  intro n
  induction n with
  | zero =>
    intro fuel t acc _ hn hfuel
    obtain ⟨f, rfl⟩ : ∃ f, fuel = f + 1 := ⟨fuel - 1, by omega⟩
    have hgt : ¬ t ≤ swapMaturity := by omega
    rw [fixedLegLoop_succ, if_neg hgt, Finset.Icc_eq_empty hgt, Finset.sum_empty, add_zero]
  | succ n ih =>
    intro fuel t acc hmin hn hfuel
    obtain ⟨f, rfl⟩ : ∃ f, fuel = f + 1 := ⟨fuel - 1, by omega⟩
    have hle : t ≤ swapMaturity := by omega
    have hw : wrapInt (t + 1) = t + 1 :=
      wrapInt_of_inRange _ (by omega) (by omega)
    rw [fixedLegLoop_succ, if_pos hle, hw,
      ih f (t + 1) _ (by omega) (by omega) (by omega),
      Icc_int_eq_insert t swapMaturity hle, Finset.sum_insert (by simp), add_assoc]

/-- When `swapMaturity` is the largest `int` the loop condition holds at every
counter value, so the fixed-leg loop never exits. -/
theorem fixedLegLoop_eq_none_of_INT_MAX_le (hM : INT_MAX ≤ swapMaturity) (fuel : Nat) :
    ∀ (t : Int) (acc : α), t ≤ INT_MAX →
      fixedLegLoop m notional fixedRate swapMaturity beta0 beta1 beta2 beta3 tau1 tau2 fuel t acc
        = none := by
  induction fuel with
  | zero => intro t acc _; rfl
  | succ f ih =>
    intro t acc ht
    rw [fixedLegLoop_succ, if_pos (le_trans ht hM)]
    exact ih _ _ (wrapInt_le_INT_MAX _)

/-- More fuel does not change a result of the fixed-leg loop. -/
theorem fixedLegLoop_fuel_mono (k : Nat) :
    ∀ (fuel : Nat) (t : Int) (acc v : α),
      fixedLegLoop m notional fixedRate swapMaturity beta0 beta1 beta2 beta3 tau1 tau2 fuel t acc
        = some v →
      fixedLegLoop m notional fixedRate swapMaturity beta0 beta1 beta2 beta3 tau1 tau2
        (fuel + k) t acc = some v := by
  intro fuel
  induction fuel with
  | zero => intro t acc v h; exact absurd h (by simp [fixedLegLoop])
  | succ f ih =>
    intro t acc v h
    rw [Nat.add_right_comm, fixedLegLoop_succ]
    rw [fixedLegLoop_succ] at h
    by_cases hle : t ≤ swapMaturity
    · rw [if_pos hle] at h ⊢
      exact ih _ _ _ h
    · rw [if_neg hle] at h ⊢
      exact h

/-- A result of `calculateFixedLegPV` is the sum of the cash flows of the
periods `1..swapMaturity`, and there is a result only below `INT_MAX`. -/
theorem calculateFixedLegPV_eq_some (fuel : Nat) (v : α)
    (h : calculateFixedLegPV m fuel notional fixedRate swapMaturity beta0 beta1 beta2 beta3
      tau1 tau2 = some v) :
    swapMaturity < INT_MAX ∧
      v = ∑ i in Finset.Icc 1 swapMaturity,
        fixedCashFlow m notional fixedRate beta0 beta1 beta2 beta3 tau1 tau2 i := by
  unfold calculateFixedLegPV at h
  by_cases hM : swapMaturity < INT_MAX
  · refine ⟨hM, ?_⟩
    have h1 := fixedLegLoop_fuel_mono m notional fixedRate swapMaturity beta0 beta1 beta2 beta3
      tau1 tau2 ((swapMaturity + 1 - 1).toNat + 1) fuel 1 0 v h
    rw [fixedLegLoop_eq_sum m notional fixedRate swapMaturity beta0 beta1 beta2 beta3 tau1 tau2
      hM _ _ 1 0 (by unfold INT_MIN; omega) rfl (by omega), zero_add] at h1
    exact (Option.some.inj h1).symm
  · rw [fixedLegLoop_eq_none_of_INT_MAX_le m notional fixedRate swapMaturity beta0 beta1 beta2
      beta3 tau1 tau2 (not_lt.mp hM) fuel 1 0 (by unfold INT_MAX; omega)] at h
    exact absurd h (by simp)

/-- `calculateFixedLegPV` returns the sum of the cash flows of the periods
`1..swapMaturity` once the fuel exceeds the number of periods. -/
theorem calculateFixedLegPV_of_lt_INT_MAX (hM : swapMaturity < INT_MAX) (fuel : Nat)
    (hfuel : swapMaturity.toNat < fuel) :
    calculateFixedLegPV m fuel notional fixedRate swapMaturity beta0 beta1 beta2 beta3 tau1 tau2
      = some (∑ i in Finset.Icc 1 swapMaturity,
          fixedCashFlow m notional fixedRate beta0 beta1 beta2 beta3 tau1 tau2 i) := by
  unfold calculateFixedLegPV
  rw [fixedLegLoop_eq_sum m notional fixedRate swapMaturity beta0 beta1 beta2 beta3 tau1 tau2
    hM (swapMaturity + 1 - 1).toNat fuel 1 0 (by unfold INT_MIN; omega) rfl
    (by simpa using hfuel), zero_add]

/-- The floating-leg loop computes what the fixed-leg loop computes at coupon 1. -/
theorem floatingLegLoop_eq_fixedLegLoop (fuel : Nat) :
    ∀ (t : Int) (acc : α),
      floatingLegLoop m notional swapMaturity beta0 beta1 beta2 beta3 tau1 tau2 fuel t acc
        = fixedLegLoop m notional 1 swapMaturity beta0 beta1 beta2 beta3 tau1 tau2 fuel t acc := by
  induction fuel with
  | zero => intro t acc; rfl
  | succ f ih =>
    intro t acc
    rw [floatingLegLoop_succ, fixedLegLoop_succ, ih]
    simp only [floatingCashFlow, fixedCashFlow, mul_one]

/-- The floating leg is the fixed leg at coupon 1, for every fuel. -/
theorem calculateFloatingLegPV_eq_fixed (fuel : Nat) :
    calculateFloatingLegPV m fuel notional swapMaturity beta0 beta1 beta2 beta3 tau1 tau2
      = calculateFixedLegPV m fuel notional 1 swapMaturity beta0 beta1 beta2 beta3 tau1 tau2 :=
  floatingLegLoop_eq_fixedLegLoop m notional swapMaturity beta0 beta1 beta2 beta3 tau1 tau2
    fuel 1 0

/-- Scaling the product `notional * fixedRate` by `k` scales the accumulator of
the fixed-leg loop by `k`, whatever the fuel. -/
theorem fixedLegLoop_scale (k notional2 fixedRate2 : α)
    (hk : notional2 * fixedRate2 = k * (notional * fixedRate)) (fuel : Nat) :
    ∀ (t : Int) (acc : α),
      fixedLegLoop m notional2 fixedRate2 swapMaturity beta0 beta1 beta2 beta3 tau1 tau2
        fuel t (k * acc)
      = Option.map (fun v => k * v)
          (fixedLegLoop m notional fixedRate swapMaturity beta0 beta1 beta2 beta3 tau1 tau2
            fuel t acc) := by
  induction fuel with
  | zero => intro t acc; rfl
  | succ f ih =>
    intro t acc
    rw [fixedLegLoop_succ, fixedLegLoop_succ]
    by_cases hle : t ≤ swapMaturity
    · rw [if_pos hle, if_pos hle, ← ih]
      congr 1
      simp only [fixedCashFlow, hk]
      ring
    · rw [if_neg hle, if_neg hle]
      rfl

/-- Below `INT_MAX` the fixed-leg loop has not exited while the fuel does not
exceed the number of periods left. -/
theorem fixedLegLoop_eq_none_of_fuel_le (hM : swapMaturity < INT_MAX) (fuel : Nat) :
    ∀ (t : Int) (acc : α), INT_MIN ≤ t → fuel ≤ (swapMaturity + 1 - t).toNat →
      fixedLegLoop m notional fixedRate swapMaturity beta0 beta1 beta2 beta3 tau1 tau2 fuel t acc
        = none := by
  induction fuel with
  | zero => intro t acc _ _; rfl
  | succ f ih =>
    intro t acc hmin hf
    have hle : t ≤ swapMaturity := by omega
    have hw : wrapInt (t + 1) = t + 1 :=
      wrapInt_of_inRange _ (by omega) (by omega)
    rw [fixedLegLoop_succ, if_pos hle, hw]
    exact ih _ _ (by omega) (by omega)

/-- A result of the fixed-leg loop is the accumulator plus the cash flows at
the counter values with which the body ran. -/
theorem fixedLegLoop_eq_sum_loopCounterValues (fuel : Nat) :
    ∀ (t : Int) (acc v : α),
      fixedLegLoop m notional fixedRate swapMaturity beta0 beta1 beta2 beta3 tau1 tau2 fuel t acc
        = some v →
      v = acc + ((loopCounterValues swapMaturity fuel t).map
        (fixedCashFlow m notional fixedRate beta0 beta1 beta2 beta3 tau1 tau2)).sum := by
  induction fuel with
  | zero => intro t acc v h; exact absurd h (by simp [fixedLegLoop])
  | succ f ih =>
    intro t acc v h
    rw [fixedLegLoop_succ] at h
    by_cases hle : t ≤ swapMaturity
    · rw [if_pos hle] at h
      rw [ih _ _ _ h, loopCounterValues, if_pos hle, List.map_cons, List.sum_cons, add_assoc]
    · rw [if_neg hle] at h
      rw [loopCounterValues, if_neg hle, List.map_nil, List.sum_nil, add_zero]
      exact (Option.some.inj h).symm

end Loops

/-! ## The counter values of the loop -/

/-- Below `INT_MAX` every counter value with which the body runs lies between
the start value and `swapMaturity`. -/
theorem loopCounterValues_mem_of_lt_INT_MAX (M : Int) (hM : M < INT_MAX) (fuel : Nat) :
    ∀ t : Int, INT_MIN ≤ t → ∀ x ∈ loopCounterValues M fuel t, t ≤ x ∧ x ≤ M := by
  induction fuel with
  | zero => intro t _ x hx; simp [loopCounterValues] at hx
  | succ f ih =>
    intro t hmin x hx
    rw [loopCounterValues] at hx
    by_cases hle : t ≤ M
    · rw [if_pos hle, List.mem_cons] at hx
      rcases hx with rfl | hx
      · exact ⟨le_refl _, hle⟩
      · rw [wrapInt_of_inRange _ (by omega) (by omega)] at hx
        have h := ih (t + 1) (by omega) x hx
        exact ⟨by omega, h.2⟩
    · rw [if_neg hle] at hx
      simp at hx

/-- Below `INT_MAX`, once the fuel exceeds the number of periods left, the body
has run exactly with the counter values `t, t+1, ..., swapMaturity`. -/
theorem loopCounterValues_eq_map_of_lt_INT_MAX (M : Int) (hM : M < INT_MAX) :
    ∀ (n fuel : Nat) (t : Int), INT_MIN ≤ t → (M + 1 - t).toNat = n → n < fuel →
      loopCounterValues M fuel t = (List.range n).map (fun k : Nat => t + (k : Int)) := by
  intro n
  induction n with
  | zero =>
    intro fuel t _ hn hfuel
    obtain ⟨f, rfl⟩ : ∃ f, fuel = f + 1 := ⟨fuel - 1, by omega⟩
    have hgt : ¬ t ≤ M := by omega
    rw [loopCounterValues, if_neg hgt]
    rfl
  | succ n ih =>
    intro fuel t hmin hn hfuel
    obtain ⟨f, rfl⟩ : ∃ f, fuel = f + 1 := ⟨fuel - 1, by omega⟩
    have hle : t ≤ M := by omega
    rw [loopCounterValues, if_pos hle, wrapInt_of_inRange _ (by omega) (by omega),
      ih f (t + 1) (by omega) (by omega) (by omega), List.range_succ_eq_map, List.map_cons,
      List.map_map]
    congr 1
    · simp
    · refine List.map_congr_left (fun k _ => ?_)
      simp only [Function.comp, Nat.succ_eq_add_one, Nat.cast_add, Nat.cast_one]
      ring

/-- When `swapMaturity` is the largest `int` the body runs at every evaluation
of the condition, with the counter wrapping around. -/
theorem loopCounterValues_eq_map_of_INT_MAX_le (M : Int) (hM : INT_MAX ≤ M) (fuel : Nat) :
    ∀ t : Int, INT_MIN ≤ t → t ≤ INT_MAX →
      loopCounterValues M fuel t
        = (List.range fuel).map (fun k : Nat => wrapInt (t + (k : Int))) := by
  induction fuel with
  | zero => intro t _ _; rfl
  | succ f ih =>
    intro t hmin hmax
    rw [loopCounterValues, if_pos (le_trans hmax hM),
      ih _ (INT_MIN_le_wrapInt _) (wrapInt_le_INT_MAX _), List.range_succ_eq_map, List.map_cons,
      List.map_map]
    congr 1
    · simp [wrapInt_of_inRange t hmin hmax]
    · refine List.map_congr_left (fun k _ => ?_)
      simp only [Function.comp, Nat.succ_eq_add_one, Nat.cast_add, Nat.cast_one]
      unfold wrapInt
      omega

/-! ## Cash flows over the reals -/

/-- The discount factor over the reals. -/
theorem calculateDiscountFactor_real (rate t : ℝ) :
    calculateDiscountFactor realMath rate t = Real.exp (-rate * t) := rfl

/-- A cash flow is positive when notional and coupon are. -/
theorem fixedCashFlow_real_pos (notional fixedRate beta0 beta1 beta2 beta3 tau1 tau2 : ℝ)
    (hn : 0 < notional) (hc : 0 < fixedRate) (i : Int) :
    0 < fixedCashFlow realMath notional fixedRate beta0 beta1 beta2 beta3 tau1 tau2 i := by
  unfold fixedCashFlow
  rw [calculateDiscountFactor_real]
  exact mul_pos (mul_pos hn hc) (Real.exp_pos _)

/-- The sum of the discount factors of the periods `1..M` is positive for `M ≥ 1`. -/
theorem sum_fixedCashFlow_unit_pos (beta0 beta1 beta2 beta3 tau1 tau2 : ℝ) (M : Int)
    (hM : 1 ≤ M) :
    0 < ∑ i in Finset.Icc 1 M, fixedCashFlow realMath 1 1 beta0 beta1 beta2 beta3 tau1 tau2 i :=
  Finset.sum_pos
    (fun i _ => fixedCashFlow_real_pos 1 1 beta0 beta1 beta2 beta3 tau1 tau2 one_pos one_pos i)
    ⟨1, Finset.mem_Icc.mpr ⟨le_refl 1, hM⟩⟩

/-- The sum of the cash flows is `notional * fixedRate` times the sum of the discount factors. -/
theorem sum_fixedCashFlow_eq_mul (notional fixedRate beta0 beta1 beta2 beta3 tau1 tau2 : ℝ)
    (M : Int) :
    ∑ i in Finset.Icc 1 M, fixedCashFlow realMath notional fixedRate beta0 beta1 beta2 beta3
        tau1 tau2 i
      = notional * fixedRate *
        ∑ i in Finset.Icc 1 M, fixedCashFlow realMath 1 1 beta0 beta1 beta2 beta3 tau1 tau2 i := by
  rw [Finset.mul_sum]
  refine Finset.sum_congr rfl (fun i _ => ?_)
  simp only [fixedCashFlow]
  ring

/-- Below `INT_MAX`, with a non-zero notional and at least one period, the
forward swap rate is the quotient of a non-zero sum by itself. -/
theorem calculateForwardSwapRate_of_lt_INT_MAX
    (notional beta0 beta1 beta2 beta3 tau1 tau2 : ℝ) (M : Int) (fuel : Nat)
    (hn : notional ≠ 0) (hM1 : 1 ≤ M) (hM : M < INT_MAX) (hfuel : M.toNat < fuel) :
    calculateForwardSwapRate realMath fuel notional M beta0 beta1 beta2 beta3 tau1 tau2
      = some 1 := by
  unfold calculateForwardSwapRate
  rw [calculateFloatingLegPV_eq_fixed,
    calculateFixedLegPV_of_lt_INT_MAX realMath notional 1 M beta0 beta1 beta2 beta3 tau1 tau2 hM
      fuel hfuel]
  have hpos := sum_fixedCashFlow_unit_pos beta0 beta1 beta2 beta3 tau1 tau2 M hM1
  have hS : ∑ i in Finset.Icc 1 M, fixedCashFlow realMath notional 1 beta0 beta1 beta2 beta3
      tau1 tau2 i ≠ 0 := by
    rw [sum_fixedCashFlow_eq_mul]
    exact mul_ne_zero (mul_ne_zero hn one_ne_zero) hpos.ne'
  simp only [div_self hS]

/-- The value `main` computes is the pipeline at the constants of `main`. -/
theorem main_eq_swaptionPipeline {α : Type} [Field α] (m : CMath α) (fuel : Nat) :
    main m fuel
      = swaptionPipeline m fuel 1000000.0 0.05 2.0 0.2 true 5 0.02 (-0.01) 0.03 (-0.02) 2.0
          10.0 := rfl

/-- Below `INT_MAX`, with a non-zero notional and at least one period, the
pipeline prices the swaption at forward rate 1. -/
theorem swaptionPipeline_of_lt_INT_MAX
    (notional K T sigma : ℝ) (isPayerSwaption : Bool) (M : Int)
    (beta0 beta1 beta2 beta3 tau1 tau2 : ℝ) (fuel : Nat)
    (hn : notional ≠ 0) (hM1 : 1 ≤ M) (hM : M < INT_MAX) (hfuel : M.toNat < fuel) :
    swaptionPipeline realMath fuel notional K T sigma isPayerSwaption M beta0 beta1 beta2 beta3
        tau1 tau2
      = some (calculateSwaptionPrice realMath notional K 1 T sigma isPayerSwaption) := by
  unfold swaptionPipeline
  rw [calculateForwardSwapRate_of_lt_INT_MAX notional beta0 beta1 beta2 beta3 tau1 tau2 M fuel
    hn hM1 hM hfuel]

/-! ## The normal distribution function -/

section Gaussian

open MeasureTheory

/-- The Gaussian `exp (-s²)` is integrable. -/
theorem integrable_exp_neg_sq : Integrable (fun s : ℝ => Real.exp (-s ^ 2)) := by
  simpa using integrable_exp_neg_mul_sq (b := 1) one_pos

/-- Half of the Gaussian integral lies left of 0. -/
theorem lowerTail_zero : lowerTail 0 = Real.sqrt Real.pi / 2 := by
  have h := integral_comp_neg_Iic (0 : ℝ) (fun s : ℝ => Real.exp (-s ^ 2))
  have g := integral_gaussian_Ioi 1
  simp only [neg_sq, neg_zero] at h
  simp only [neg_mul, one_mul, div_one] at g
  unfold lowerTail
  rw [h, g]

/-- The error function in terms of the lower Gaussian tail. -/
theorem erf_eq_lowerTail (x : ℝ) : erf x = 2 / Real.sqrt Real.pi * lowerTail x - 1 := by
  have h := intervalIntegral.integral_Iic_sub_Iic
    (integrable_exp_neg_sq.integrableOn (s := Set.Iic 0))
    (integrable_exp_neg_sq.integrableOn (s := Set.Iic x))
  have hpi : Real.sqrt Real.pi ≠ 0 := (Real.sqrt_pos.mpr Real.pi_pos).ne'
  unfold erf
  rw [← h]
  change 2 / Real.sqrt Real.pi * (lowerTail x - lowerTail 0) = _
  rw [lowerTail_zero]
  field_simp
  ring

/-- The lower tail at `a` as an integral over the negative half line. -/
theorem lowerTail_translate (a : ℝ) :
    lowerTail a = ∫ u in Set.Iic (0 : ℝ), Real.exp (-(u + a) ^ 2) := by
  have h := (measurePreserving_add_right volume a).setIntegral_preimage_emb
    (measurableEmbedding_addRight a) (fun s : ℝ => Real.exp (-s ^ 2)) (Set.Iic a)
  unfold lowerTail
  rw [← h]
  congr 1
  ext u
  simp

/-- The function `a ↦ exp (a²) · lowerTail a` is non-decreasing. -/
theorem exp_sq_mul_lowerTail_mono {a b : ℝ} (hab : a ≤ b) :
    Real.exp (a ^ 2) * lowerTail a ≤ Real.exp (b ^ 2) * lowerTail b := by
  rw [lowerTail_translate a, lowerTail_translate b, ← integral_mul_left, ← integral_mul_left]
  have hint : ∀ c : ℝ, IntegrableOn
      (fun u : ℝ => Real.exp (c ^ 2) * Real.exp (-(u + c) ^ 2)) (Set.Iic 0) := fun c =>
    ((integrable_exp_neg_sq.comp_add_right c).const_mul _).integrableOn
  refine setIntegral_mono_on (hint a) (hint b) measurableSet_Iic (fun u hu => ?_)
  rw [← Real.exp_add, ← Real.exp_add, Real.exp_le_exp]
  have hu0 : u ≤ 0 := hu
  nlinarith [mul_nonneg (sub_nonneg.mpr hab) (neg_nonneg.mpr hu0)]

/-- The distribution function `N` in terms of the lower Gaussian tail. -/
theorem specN_eq_lowerTail (x : ℝ) :
    specN x = lowerTail (x / Real.sqrt 2) / Real.sqrt Real.pi := by
  unfold specN
  rw [erf_eq_lowerTail]
  ring

/-- The error function is odd. -/
theorem erf_neg (x : ℝ) : erf (-x) = -erf x := by
  have h := intervalIntegral.integral_comp_neg (a := 0) (b := x)
    (fun s : ℝ => Real.exp (-s ^ 2))
  simp only [neg_sq, neg_zero] at h
  unfold erf
  rw [h, intervalIntegral.integral_symm]
  ring

/-- Symmetry of the normal distribution: `N(-x) = 1 - N(x)`. -/
theorem specN_neg (x : ℝ) : specN (-x) = 1 - specN x := by
  unfold specN
  rw [neg_div, erf_neg]
  ring

/-- The core inequality of the Black formula: when the forward rate and the strike
weigh the normal density equally at `x ≥ y`, `K·N(y) ≤ F·N(x)`. -/
theorem black_core {F K x y : ℝ} (hF : 0 ≤ F)
    (hyx : y ≤ x) (hFK : F * Real.exp (-(x ^ 2 / 2)) = K * Real.exp (-(y ^ 2 / 2))) :
    K * specN y ≤ F * specN x := by
  have h2 : (0 : ℝ) < Real.sqrt 2 := Real.sqrt_pos.mpr two_pos
  have hpi : (0 : ℝ) < Real.sqrt Real.pi := Real.sqrt_pos.mpr Real.pi_pos
  have hsq : ∀ z : ℝ, (z / Real.sqrt 2) ^ 2 = z ^ 2 / 2 := by
    intro z
    rw [div_pow, Real.sq_sqrt two_pos.le]
  have hmono := exp_sq_mul_lowerTail_mono (div_le_div_of_nonneg_right hyx h2.le)
  rw [hsq, hsq] at hmono
  have hx : F * specN x
      = F * Real.exp (-(x ^ 2 / 2)) * (Real.exp (x ^ 2 / 2) * lowerTail (x / Real.sqrt 2))
        / Real.sqrt Real.pi := by
    rw [specN_eq_lowerTail, mul_assoc, ← mul_assoc (Real.exp _), ← Real.exp_add, neg_add_cancel,
      Real.exp_zero, one_mul, mul_div_assoc]
  have hy : K * specN y
      = K * Real.exp (-(y ^ 2 / 2)) * (Real.exp (y ^ 2 / 2) * lowerTail (y / Real.sqrt 2))
        / Real.sqrt Real.pi := by
    rw [specN_eq_lowerTail, mul_assoc, ← mul_assoc (Real.exp _), ← Real.exp_add, neg_add_cancel,
      Real.exp_zero, one_mul, mul_div_assoc]
  rw [hx, hy, ← hFK]
  have hc : 0 ≤ F * Real.exp (-(x ^ 2 / 2)) := mul_nonneg hF (Real.exp_pos _).le
  exact div_le_div_of_nonneg_right (mul_le_mul_of_nonneg_left hmono hc) hpi.le

/-- For positive volatility `d2 ≤ d1`. -/
theorem specD2_le_specD1 (K F T sigma : ℝ) (hsigma : 0 < sigma) :
    specD2 K F T sigma ≤ specD1 K F T sigma := by
  unfold specD2
  exact sub_le_self _ (mul_nonneg hsigma.le (Real.sqrt_nonneg T))

/-- The identity `F·exp(-d1²/2) = K·exp(-d2²/2)` of the Black formula. -/
theorem forward_density_eq_strike_density (K F T sigma : ℝ)
    (hF : 0 < F) (hK : 0 < K) (hsigma : 0 < sigma) (hT : 0 < T) :
    F * Real.exp (-(specD1 K F T sigma ^ 2 / 2))
      = K * Real.exp (-(specD2 K F T sigma ^ 2 / 2)) := by
  have hs : sigma * Real.sqrt T ≠ 0 := (mul_pos hsigma (Real.sqrt_pos.mpr hT)).ne'
  have hs2 : (sigma * Real.sqrt T) ^ 2 = sigma ^ 2 * T := by
    rw [mul_pow, Real.sq_sqrt hT.le]
  have hd1 : sigma * Real.sqrt T * specD1 K F T sigma
      = Real.log (F / K) + sigma ^ 2 * T / 2 := by
    unfold specD1
    field_simp
    ring
  have hexp : -(specD2 K F T sigma ^ 2 / 2)
      = Real.log (F / K) + -(specD1 K F T sigma ^ 2 / 2) := by
    unfold specD2
    linear_combination hd1 - hs2 / 2
  rw [hexp, Real.exp_add, Real.exp_log (div_pos hF hK)]
  field_simp

/-- The payer branch of `calculateSwaptionPrice` over the reals. -/
theorem calculateSwaptionPrice_payer (notional K F T sigma : ℝ) :
    calculateSwaptionPrice realMath notional K F T sigma true
      = notional * (F * specN (specD1 K F T sigma) - K * specN (specD2 K F T sigma)) := by
  have h : (0.5 : ℝ) * sigma * sigma * T = sigma ^ 2 * T / 2 := by ring
  have e1 : (1.0 : ℝ) = 1 := by norm_num
  have e2 : (2.0 : ℝ) = 2 := by norm_num
  simp only [calculateSwaptionPrice, realMath, specN, specD1, specD2, h, e1, e2, if_true]

/-- The receiver branch of `calculateSwaptionPrice` over the reals. -/
theorem calculateSwaptionPrice_receiver (notional K F T sigma : ℝ) :
    calculateSwaptionPrice realMath notional K F T sigma false
      = notional * (K * (1 - specN (specD2 K F T sigma))
          - F * (1 - specN (specD1 K F T sigma))) := by
  have h : (0.5 : ℝ) * sigma * sigma * T = sigma ^ 2 * T / 2 := by ring
  have e1 : (1.0 : ℝ) = 1 := by norm_num
  have e2 : (2.0 : ℝ) = 2 := by norm_num
  simp only [calculateSwaptionPrice, realMath, specN, specD1, specD2, h, e1, e2,
    Bool.false_eq_true, if_false]

end Gaussian

/-! ## Limits of the spot rate -/

section Limits

open Filter Topology

/-- The decay factor `exp (-t / tau)` tends to 0 as `t` tends to infinity. -/
theorem tendsto_exp_neg_div_atTop (tau : ℝ) (h : 0 < tau) :
    Tendsto (fun t : ℝ => Real.exp (-t / tau)) atTop (𝓝 0) := by
  have hx : Tendsto (fun t : ℝ => t / tau) atTop atTop := tendsto_id.atTop_div_const h
  have := Real.tendsto_exp_neg_atTop_nhds_zero.comp hx
  refine this.congr (fun t => ?_)
  simp only [Function.comp, neg_div]

/-- The factor `(1 - exp (-t/tau)) / (t/tau)` tends to 0 as `t` tends to infinity. -/
theorem tendsto_g_atTop (tau : ℝ) (h : 0 < tau) :
    Tendsto (fun t : ℝ => (1 - Real.exp (-t / tau)) / (t / tau)) atTop (𝓝 0) := by
  have hx : Tendsto (fun t : ℝ => t / tau) atTop atTop := tendsto_id.atTop_div_const h
  have hnum : Tendsto (fun t : ℝ => 1 - Real.exp (-t / tau)) atTop (𝓝 (1 - 0)) :=
    tendsto_const_nhds.sub (tendsto_exp_neg_div_atTop tau h)
  exact hnum.div_atTop hx

/-- The decay factor `exp (-t / tau)` tends to 1 as `t` tends to 0. -/
theorem tendsto_exp_neg_div_zero (tau : ℝ) :
    Tendsto (fun t : ℝ => Real.exp (-t / tau)) (𝓝[>] 0) (𝓝 1) := by
  have hc : Continuous (fun t : ℝ => Real.exp (-t / tau)) := by continuity
  have := hc.tendsto 0
  simp only [neg_zero, zero_div, Real.exp_zero] at this
  exact this.mono_left nhdsWithin_le_nhds

/-- The factor `(1 - exp (-t/tau)) / (t/tau)` tends to 1 as `t` tends to 0 from above. -/
theorem tendsto_g_zero (tau : ℝ) (h : 0 < tau) :
    Tendsto (fun t : ℝ => (1 - Real.exp (-t / tau)) / (t / tau)) (𝓝[>] 0) (𝓝 1) := by
  have hd : HasDerivAt (fun x : ℝ => 1 - Real.exp (-x)) 1 0 := by
    have := ((hasDerivAt_id (0 : ℝ)).neg.exp).const_sub 1
    simpa using this
  have hs := hasDerivAt_iff_tendsto_slope_zero.mp hd
  have hx : Tendsto (fun t : ℝ => t / tau) (𝓝[>] 0) (𝓝[≠] 0) := by
    refine tendsto_nhdsWithin_iff.mpr ⟨?_, ?_⟩
    · have hc : Continuous (fun t : ℝ => t / tau) := by continuity
      have := hc.tendsto 0
      simp only [zero_div] at this
      exact this.mono_left nhdsWithin_le_nhds
    · filter_upwards [self_mem_nhdsWithin] with t ht
      exact (div_pos ht h).ne'
  refine (hs.comp hx).congr (fun t => ?_)
  simp only [Function.comp, zero_add, neg_zero, Real.exp_zero, sub_self, sub_zero, smul_eq_mul,
    neg_div]
  ring

end Limits

/-! ## Theorems -/

/-- C1: over the reals, for positive forward rate, strike, volatility and
maturity, `calculateSwaptionPrice` returns `notional·(F·N(d1) − K·N(d2))` for a
payer and `notional·(K·(1 − N(d2)) − F·(1 − N(d1)))` for a receiver. -/
theorem calculateSwaptionPrice_eq_black (notional K F T sigma : ℝ)
    (hF : 0 < F) (hK : 0 < K) (hsigma : 0 < sigma) (hT : 0 < T) :
    calculateSwaptionPrice realMath notional K F T sigma true
        = notional * (F * specN (specD1 K F T sigma) - K * specN (specD2 K F T sigma)) ∧
    calculateSwaptionPrice realMath notional K F T sigma false
        = notional * (K * (1 - specN (specD2 K F T sigma))
            - F * (1 - specN (specD1 K F T sigma))) :=
  ⟨calculateSwaptionPrice_payer notional K F T sigma,
    calculateSwaptionPrice_receiver notional K F T sigma⟩

/-- Witness of C1 at notional 100, strike 1, forward rate 2, maturity 1, volatility 1. -/
theorem calculateSwaptionPrice_eq_black_witness :
    calculateSwaptionPrice realMath 100 1 2 1 1 true
        = 100 * (2 * specN (specD1 1 2 1 1) - 1 * specN (specD2 1 2 1 1)) ∧
    calculateSwaptionPrice realMath 100 1 2 1 1 false
        = 100 * (1 * (1 - specN (specD2 1 2 1 1)) - 2 * (1 - specN (specD1 1 2 1 1))) :=
  calculateSwaptionPrice_eq_black 100 1 2 1 1 (by norm_num) (by norm_num) (by norm_num)
    (by norm_num)

/-- C2: over the reals, for `t > 0`, `tau1 > 0`, `tau2 > 0`, `calculateSpotRate`
equals `β0 + β1·g(t/τ1) + β2·(g(t/τ1) − e^(−t/τ1)) + β3·(g(t/τ2) − e^(−t/τ2))`
with `g(x) = (1 − e^(−x))/x`. -/
theorem calculateSpotRate_eq_spec (t beta0 beta1 beta2 beta3 tau1 tau2 : ℝ)
    (ht : 0 < t) (h1 : 0 < tau1) (h2 : 0 < tau2) :
    calculateSpotRate realMath t beta0 beta1 beta2 beta3 tau1 tau2
      = specSpotRate t beta0 beta1 beta2 beta3 tau1 tau2 := by
  simp only [calculateSpotRate, specSpotRate, specG, realMath, neg_div]
  ring

/-- Witness of C2 at `t = 1`, `tau1 = 2`, `tau2 = 10`. -/
theorem calculateSpotRate_eq_spec_witness :
    calculateSpotRate realMath 1 0.02 (-0.01) 0.03 (-0.02) 2 10
      = specSpotRate 1 0.02 (-0.01) 0.03 (-0.02) 2 10 :=
  calculateSpotRate_eq_spec 1 0.02 (-0.01) 0.03 (-0.02) 2 10 (by norm_num) (by norm_num)
    (by norm_num)

/-- C3 (amended): for every swap maturity `M` with `0 ≤ M < 2^31 - 1`,
`calculateFixedLegPV` returns, once the fuel covers the `M + 1` evaluations of
the loop condition, the sum over the integer periods `t = 1..M` of
`notional * fixedRate * calculateDiscountFactor(calculateSpotRate(t, ...), t)`,
that is of `notional * fixedRate * exp(-t * spotRate(t))`. -/
theorem calculateFixedLegPV_eq_sum_periods
    (notional fixedRate beta0 beta1 beta2 beta3 tau1 tau2 : ℝ) (M : Int) (fuel : Nat)
    (h0 : 0 ≤ M) (hM : M < INT_MAX) (hfuel : M.toNat < fuel) :
    calculateFixedLegPV realMath fuel notional fixedRate M beta0 beta1 beta2 beta3 tau1 tau2
      = some (∑ t in Finset.Icc (1 : Int) M,
          notional * fixedRate *
            calculateDiscountFactor realMath
              (calculateSpotRate realMath (t : ℝ) beta0 beta1 beta2 beta3 tau1 tau2) (t : ℝ)) ∧
    (∑ t in Finset.Icc (1 : Int) M,
        notional * fixedRate *
          calculateDiscountFactor realMath
            (calculateSpotRate realMath (t : ℝ) beta0 beta1 beta2 beta3 tau1 tau2) (t : ℝ))
      = ∑ t in Finset.Icc (1 : Int) M,
          notional * fixedRate *
            Real.exp (-((t : ℝ) * calculateSpotRate realMath (t : ℝ) beta0 beta1 beta2 beta3
              tau1 tau2)) := by
  refine ⟨calculateFixedLegPV_of_lt_INT_MAX realMath notional fixedRate M beta0 beta1 beta2
    beta3 tau1 tau2 hM fuel hfuel, Finset.sum_congr rfl (fun t _ => ?_)⟩
  rw [calculateDiscountFactor_real, neg_mul, mul_comm (calculateSpotRate _ _ _ _ _ _ _ _)]

/-- Witness of C3 (amended) at maturity 2 with fuel 3 on the curve of `main`. -/
theorem calculateFixedLegPV_eq_sum_periods_witness :
    calculateFixedLegPV realMath 3 1000000 0.05 2 0.02 (-0.01) 0.03 (-0.02) 2 10
      = some (∑ t in Finset.Icc (1 : Int) 2,
          1000000 * 0.05 *
            calculateDiscountFactor realMath
              (calculateSpotRate realMath (t : ℝ) 0.02 (-0.01) 0.03 (-0.02) 2 10) (t : ℝ)) :=
  (calculateFixedLegPV_eq_sum_periods 1000000 0.05 0.02 (-0.01) 0.03 (-0.02) 2 10 2 3
    (by decide) (by decide) (by decide)).1

/-- C3 as stated fails at `swapMaturity = 2^31 - 1`: the loop counter wraps
around and `calculateFixedLegPV` returns nothing, whatever the fuel. -/
theorem calculateFixedLegPV_INT_MAX_no_result :
    ¬ ∃ (fuel : Nat) (v : ℝ),
      calculateFixedLegPV realMath fuel 1000000 0.05 2147483647 0.02 (-0.01) 0.03 (-0.02) 2 10
        = some v := by
  rintro ⟨fuel, v, h⟩
  have hlt := (calculateFixedLegPV_eq_some realMath 1000000 0.05 2147483647 0.02 (-0.01) 0.03
    (-0.02) 2 10 fuel v h).1
  exact absurd hlt (by decide)

/-- C6: over the reals, with `N` the standard normal distribution function, for
`notional ≥ 0`, `F > 0`, `K > 0`, `sigma > 0` and `T > 0` the price returned by
`calculateSwaptionPrice` is non-negative for the payer and for the receiver. -/
theorem calculateSwaptionPrice_nonneg (notional K F T sigma : ℝ)
    (hn : 0 ≤ notional) (hF : 0 < F) (hK : 0 < K) (hsigma : 0 < sigma) (hT : 0 < T) :
    0 ≤ calculateSwaptionPrice realMath notional K F T sigma true ∧
    0 ≤ calculateSwaptionPrice realMath notional K F T sigma false := by
  have hle := specD2_le_specD1 K F T sigma hsigma
  have hdens := forward_density_eq_strike_density K F T sigma hF hK hsigma hT
  constructor
  · rw [calculateSwaptionPrice_payer]
    exact mul_nonneg hn (sub_nonneg.mpr (black_core hF.le hle hdens))
  · rw [calculateSwaptionPrice_receiver, ← specN_neg, ← specN_neg]
    refine mul_nonneg hn (sub_nonneg.mpr (black_core hK.le (neg_le_neg hle) ?_))
    rw [neg_sq, neg_sq]
    exact hdens.symm

/-- Witness of C6 with the constants of `main` and forward rate 1. -/
theorem calculateSwaptionPrice_nonneg_witness :
    0 ≤ calculateSwaptionPrice realMath 1000000 0.05 1 2 0.2 true ∧
    0 ≤ calculateSwaptionPrice realMath 1000000 0.05 1 2 0.2 false :=
  calculateSwaptionPrice_nonneg 1000000 0.05 1 2 0.2 (by norm_num) (by norm_num) (by norm_num)
    (by norm_num) (by norm_num)

/-- C7: `calculateFixedLegPV` is linear in the notional and in the coupon rate:
for every fuel the outcome at `(N, c)` is `N` times the outcome at `(1, c)` and
the outcome at `(N, 2c)` is twice the outcome at `(N, c)`; below `2^31 - 1` these
outcomes are values `v`, `N * v` and `2 * (N * v)`. -/
theorem calculateFixedLegPV_linear (N c beta0 beta1 beta2 beta3 tau1 tau2 : ℝ) (M : Int)
    (fuel : Nat) :
    calculateFixedLegPV realMath fuel N c M beta0 beta1 beta2 beta3 tau1 tau2
      = Option.map (fun v => N * v)
          (calculateFixedLegPV realMath fuel 1 c M beta0 beta1 beta2 beta3 tau1 tau2) ∧
    calculateFixedLegPV realMath fuel N (2 * c) M beta0 beta1 beta2 beta3 tau1 tau2
      = Option.map (fun v => 2 * v)
          (calculateFixedLegPV realMath fuel N c M beta0 beta1 beta2 beta3 tau1 tau2) ∧
    (M < INT_MAX → M.toNat < fuel → ∃ v : ℝ,
      calculateFixedLegPV realMath fuel 1 c M beta0 beta1 beta2 beta3 tau1 tau2 = some v ∧
      calculateFixedLegPV realMath fuel N c M beta0 beta1 beta2 beta3 tau1 tau2
        = some (N * v) ∧
      calculateFixedLegPV realMath fuel N (2 * c) M beta0 beta1 beta2 beta3 tau1 tau2
        = some (2 * (N * v))) := by
  have hN : calculateFixedLegPV realMath fuel N c M beta0 beta1 beta2 beta3 tau1 tau2
      = Option.map (fun v => N * v)
          (calculateFixedLegPV realMath fuel 1 c M beta0 beta1 beta2 beta3 tau1 tau2) := by
    have h := fixedLegLoop_scale realMath 1 c M beta0 beta1 beta2 beta3 tau1 tau2 N N c
      (by ring) fuel 1 0
    rwa [mul_zero] at h
  have h2 : calculateFixedLegPV realMath fuel N (2 * c) M beta0 beta1 beta2 beta3 tau1 tau2
      = Option.map (fun v => 2 * v)
          (calculateFixedLegPV realMath fuel N c M beta0 beta1 beta2 beta3 tau1 tau2) := by
    have h := fixedLegLoop_scale realMath N c M beta0 beta1 beta2 beta3 tau1 tau2 2 N (2 * c)
      (by ring) fuel 1 0
    rwa [mul_zero] at h
  refine ⟨hN, h2, fun hM hfuel => ?_⟩
  have h1 := calculateFixedLegPV_of_lt_INT_MAX realMath 1 c M beta0 beta1 beta2 beta3 tau1 tau2
    hM fuel hfuel
  refine ⟨_, h1, ?_, ?_⟩
  · rw [hN, h1]
    rfl
  · rw [h2, hN, h1]
    rfl

/-- Instance of C7 at `N = 1000000`, `c = 0.05`, maturity 2, fuel 3 on the curve of `main`. -/
theorem calculateFixedLegPV_linear_witness :
    ∃ v : ℝ,
      calculateFixedLegPV realMath 3 1 0.05 2 0.02 (-0.01) 0.03 (-0.02) 2 10 = some v ∧
      calculateFixedLegPV realMath 3 1000000 0.05 2 0.02 (-0.01) 0.03 (-0.02) 2 10
        = some (1000000 * v) ∧
      calculateFixedLegPV realMath 3 1000000 (2 * 0.05) 2 0.02 (-0.01) 0.03 (-0.02) 2 10
        = some (2 * (1000000 * v)) :=
  (calculateFixedLegPV_linear 1000000 0.05 0.02 (-0.01) 0.03 (-0.02) 2 10 2 3).2.2 (by decide)
    (by decide)

/-- C11: the floating-leg valuation is the fixed-leg routine at unit coupon: for
every fuel, notional, maturity and curve the outcome of `calculateFloatingLegPV`
is the outcome of `calculateFixedLegPV` at `fixedRate = 1.0`; below `2^31 - 1`
both return the same value. -/
theorem calculateFloatingLegPV_eq_unit_coupon
    (notional beta0 beta1 beta2 beta3 tau1 tau2 : ℝ) (M : Int) (fuel : Nat) :
    calculateFloatingLegPV realMath fuel notional M beta0 beta1 beta2 beta3 tau1 tau2
      = calculateFixedLegPV realMath fuel notional 1.0 M beta0 beta1 beta2 beta3 tau1 tau2 ∧
    (M < INT_MAX → M.toNat < fuel → ∃ v : ℝ,
      calculateFloatingLegPV realMath fuel notional M beta0 beta1 beta2 beta3 tau1 tau2
        = some v ∧
      calculateFixedLegPV realMath fuel notional 1.0 M beta0 beta1 beta2 beta3 tau1 tau2
        = some v) := by
  have e1 : (1.0 : ℝ) = 1 := by norm_num
  rw [e1]
  have h := calculateFloatingLegPV_eq_fixed realMath notional M beta0 beta1 beta2 beta3 tau1
    tau2 fuel
  refine ⟨h, fun hM hfuel => ⟨_, ?_, calculateFixedLegPV_of_lt_INT_MAX realMath notional 1 M
    beta0 beta1 beta2 beta3 tau1 tau2 hM fuel hfuel⟩⟩
  rw [h]
  exact calculateFixedLegPV_of_lt_INT_MAX realMath notional 1 M beta0 beta1 beta2 beta3 tau1
    tau2 hM fuel hfuel

/-- Instance of C11 with the constants of `main` and fuel 6. -/
theorem calculateFloatingLegPV_eq_unit_coupon_witness :
    ∃ v : ℝ,
      calculateFloatingLegPV realMath 6 1000000 5 0.02 (-0.01) 0.03 (-0.02) 2 10 = some v ∧
      calculateFixedLegPV realMath 6 1000000 1.0 5 0.02 (-0.01) 0.03 (-0.02) 2 10 = some v :=
  (calculateFloatingLegPV_eq_unit_coupon 1000000 0.02 (-0.01) 0.03 (-0.02) 2 10 5 6).2
    (by decide) (by decide)

/-- C15 (amended): for every `swapMaturity < 2^31 - 1`, every call of
`calculateSpotRate` made by the loops of `calculateFixedLegPV` and
`calculateFloatingLegPV` passes an integer `t` with `1 ≤ t ≤ swapMaturity`, so
for `tau1 > 0`, `tau2 > 0` the divisors `t/tau1` and `t/tau2` are positive; the
values the legs return are the sums of the cash flows of exactly these calls. -/
theorem spotRate_calls_in_range (M : Int) (fuel : Nat) (tau1 tau2 : ℝ)
    (hM : M < INT_MAX) (h1 : 0 < tau1) (h2 : 0 < tau2) :
    (∀ t ∈ loopCounterValues M fuel 1,
      1 ≤ t ∧ t ≤ M ∧ t ≠ 0 ∧ 0 < (t : ℝ) / tau1 ∧ 0 < (t : ℝ) / tau2) ∧
    (∀ notional fixedRate beta0 beta1 beta2 beta3 v : ℝ,
      calculateFixedLegPV realMath fuel notional fixedRate M beta0 beta1 beta2 beta3 tau1 tau2
        = some v →
      v = ((loopCounterValues M fuel 1).map
        (fixedCashFlow realMath notional fixedRate beta0 beta1 beta2 beta3 tau1 tau2)).sum) ∧
    (∀ notional beta0 beta1 beta2 beta3 v : ℝ,
      calculateFloatingLegPV realMath fuel notional M beta0 beta1 beta2 beta3 tau1 tau2
        = some v →
      v = ((loopCounterValues M fuel 1).map
        (floatingCashFlow realMath notional beta0 beta1 beta2 beta3 tau1 tau2)).sum) := by
  have hfix : ∀ notional fixedRate beta0 beta1 beta2 beta3 v : ℝ,
      calculateFixedLegPV realMath fuel notional fixedRate M beta0 beta1 beta2 beta3 tau1 tau2
        = some v →
      v = ((loopCounterValues M fuel 1).map
        (fixedCashFlow realMath notional fixedRate beta0 beta1 beta2 beta3 tau1 tau2)).sum := by
    intro notional fixedRate beta0 beta1 beta2 beta3 v hv
    have h := fixedLegLoop_eq_sum_loopCounterValues realMath notional fixedRate M beta0 beta1
      beta2 beta3 tau1 tau2 fuel 1 0 v hv
    rwa [zero_add] at h
  refine ⟨fun t ht => ?_, hfix, ?_⟩
  · have h := loopCounterValues_mem_of_lt_INT_MAX M hM fuel 1 (by unfold INT_MIN; omega) t ht
    have hpos : (0 : ℝ) < (t : ℝ) := by
      have : (1 : ℝ) ≤ (t : ℝ) := by exact_mod_cast h.1
      linarith
    exact ⟨h.1, h.2, by omega, div_pos hpos h1, div_pos hpos h2⟩
  · intro notional beta0 beta1 beta2 beta3 v hv
    rw [calculateFloatingLegPV_eq_fixed] at hv
    rw [hfix notional 1 beta0 beta1 beta2 beta3 v hv]
    congr 2
    funext t
    simp only [fixedCashFlow, floatingCashFlow, mul_one]

/-- Witness of C15 (amended) with the constants of `main`: maturity 5, fuel 6,
`tau1 = 2`, `tau2 = 10`; the calls are made at `t = 1, 2, 3, 4, 5`. -/
theorem spotRate_calls_in_range_witness :
    loopCounterValues 5 6 1 = [1, 2, 3, 4, 5] ∧
    (∀ t ∈ loopCounterValues 5 6 1,
      1 ≤ t ∧ t ≤ 5 ∧ t ≠ 0 ∧ 0 < (t : ℝ) / 2 ∧ 0 < (t : ℝ) / 10) :=
  ⟨by decide,
    (spotRate_calls_in_range 5 6 2 10 (by decide) (by norm_num) (by norm_num)).1⟩

/-- C15 as stated fails at `swapMaturity = 2^31 - 1`: the counter wraps around
to `-2^31` and within the first `2^32` evaluations of the loop condition
`calculateSpotRate` is called with `t = -2^31` and with `t = 0`. -/
theorem spotRate_called_at_zero_INT_MAX :
    (-2147483648 : Int) ∈ loopCounterValues 2147483647 4294967296 1 ∧
    (0 : Int) ∈ loopCounterValues 2147483647 4294967296 1 := by
  rw [loopCounterValues_eq_map_of_INT_MAX_le 2147483647 (by decide) 4294967296 1 (by decide)
    (by decide)]
  constructor
  · exact List.mem_map.mpr ⟨2147483647, List.mem_range.mpr (by norm_num), by decide⟩
  · exact List.mem_map.mpr ⟨4294967295, List.mem_range.mpr (by norm_num), by decide⟩

/-- C16: with the constants of `main` and fuel for the six evaluations of each
loop condition, both legs are valued at the same non-zero sum, the forward swap
rate is 1, and `main` computes `1000000 * (N(d1) - 0.05 * N(d2))` with
`d1 = (ln(1/0.05) + 0.5 * 0.2^2 * 2) / (0.2 * sqrt 2)` and `d2 = d1 - 0.2 * sqrt 2`. -/
theorem main_eq_reference_price (fuel : Nat) (hfuel : 5 < fuel) :
    (∃ S : ℝ, S ≠ 0 ∧
      calculateFixedLegPV realMath fuel 1000000.0 1.0 5 0.02 (-0.01) 0.03 (-0.02) 2.0 10.0
        = some S ∧
      calculateFloatingLegPV realMath fuel 1000000.0 5 0.02 (-0.01) 0.03 (-0.02) 2.0 10.0
        = some S) ∧
    calculateForwardSwapRate realMath fuel 1000000.0 5 0.02 (-0.01) 0.03 (-0.02) 2.0 10.0
      = some 1 ∧
    main realMath fuel
      = some (1000000 *
          (specN ((Real.log (1 / 0.05) + 0.5 * 0.2 ^ 2 * 2) / (0.2 * Real.sqrt 2))
            - 0.05 * specN ((Real.log (1 / 0.05) + 0.5 * 0.2 ^ 2 * 2) / (0.2 * Real.sqrt 2)
                - 0.2 * Real.sqrt 2))) := by
  have e1 : (1.0 : ℝ) = 1 := by norm_num
  have hM : (5 : Int) < INT_MAX := by decide
  have hf : (5 : Int).toNat < fuel := by simpa using hfuel
  have hn : (1000000.0 : ℝ) ≠ 0 := by norm_num
  have hfix := calculateFixedLegPV_of_lt_INT_MAX realMath 1000000.0 1 5 0.02 (-0.01) 0.03 (-0.02)
    2.0 10.0 hM fuel hf
  refine ⟨⟨∑ i in Finset.Icc 1 5,
    fixedCashFlow realMath 1000000.0 1 0.02 (-0.01) 0.03 (-0.02) 2.0 10.0 i, ?_, ?_, ?_⟩, ?_, ?_⟩
  · rw [sum_fixedCashFlow_eq_mul]
    exact (mul_pos (mul_pos (by norm_num : (0 : ℝ) < 1000000.0) one_pos)
      (sum_fixedCashFlow_unit_pos 0.02 (-0.01) 0.03 (-0.02) 2.0 10.0 5 (by decide))).ne'
  · rw [e1]
    exact hfix
  · rw [calculateFloatingLegPV_eq_fixed]
    exact hfix
  · exact calculateForwardSwapRate_of_lt_INT_MAX 1000000.0 0.02 (-0.01) 0.03 (-0.02) 2.0 10.0 5
      fuel hn (by decide) hM hf
  · rw [main_eq_swaptionPipeline,
      swaptionPipeline_of_lt_INT_MAX 1000000.0 0.05 2.0 0.2 true 5 0.02 (-0.01) 0.03 (-0.02) 2.0
        10.0 fuel hn (by decide) hM hf,
      calculateSwaptionPrice_payer]
    simp only [specD1, specD2]
    norm_num

/-- Witness of C16 at fuel 6. -/
theorem main_eq_reference_price_witness :
    calculateForwardSwapRate realMath 6 1000000.0 5 0.02 (-0.01) 0.03 (-0.02) 2.0 10.0
      = some 1 ∧
    main realMath 6
      = some (1000000 *
          (specN ((Real.log (1 / 0.05) + 0.5 * 0.2 ^ 2 * 2) / (0.2 * Real.sqrt 2))
            - 0.05 * specN ((Real.log (1 / 0.05) + 0.5 * 0.2 ^ 2 * 2) / (0.2 * Real.sqrt 2)
                - 0.2 * Real.sqrt 2))) :=
  (main_eq_reference_price 6 (by decide)).2

/-- C17 (amended): for every `int` value of `swapMaturity` below `2^31 - 1`
(negative and zero included) the loops of `calculateFixedLegPV` and
`calculateFloatingLegPV` exit at evaluation `max(swapMaturity, 0) + 1` of the
loop condition, after exactly `max(swapMaturity, 0)` runs of the body, at the
counter values `1, ..., swapMaturity`, and no increment of `t` leaves the `int`
range. -/
theorem loops_exit_after_max_iterations
    (notional fixedRate beta0 beta1 beta2 beta3 tau1 tau2 : ℝ) (M : Int) (fuel : Nat)
    (hmin : INT_MIN ≤ M) (hM : M < INT_MAX) :
    ((∃ v : ℝ, calculateFixedLegPV realMath fuel notional fixedRate M beta0 beta1 beta2 beta3
        tau1 tau2 = some v) ↔ M.toNat < fuel) ∧
    ((∃ v : ℝ, calculateFloatingLegPV realMath fuel notional M beta0 beta1 beta2 beta3
        tau1 tau2 = some v) ↔ M.toNat < fuel) ∧
    (M.toNat < fuel →
      loopCounterValues M fuel 1 = (List.range M.toNat).map (fun k : Nat => 1 + (k : Int)) ∧
      ((loopCounterValues M fuel 1).length : Int) = max M 0) ∧
    (∀ t ∈ loopCounterValues M fuel 1,
      INT_MIN ≤ t ∧ t + 1 ≤ INT_MAX ∧ wrapInt (t + 1) = t + 1) := by
  have hfix : ∀ c : ℝ,
      (∃ v : ℝ, calculateFixedLegPV realMath fuel notional c M beta0 beta1 beta2 beta3
        tau1 tau2 = some v) ↔ M.toNat < fuel := by
    intro c
    constructor
    · rintro ⟨v, hv⟩
      by_contra hlt
      unfold calculateFixedLegPV at hv
      rw [fixedLegLoop_eq_none_of_fuel_le realMath notional c M beta0 beta1 beta2 beta3 tau1 tau2
        hM fuel 1 0 (by unfold INT_MIN; omega) (by omega)] at hv
      exact absurd hv (by simp)
    · intro hfuel
      exact ⟨_, calculateFixedLegPV_of_lt_INT_MAX realMath notional c M beta0 beta1 beta2 beta3
        tau1 tau2 hM fuel hfuel⟩
  refine ⟨hfix fixedRate, ?_, fun hfuel => ?_, fun t ht => ?_⟩
  · rw [calculateFloatingLegPV_eq_fixed]
    exact hfix 1
  · have h := loopCounterValues_eq_map_of_lt_INT_MAX M hM (M + 1 - 1).toNat fuel 1
      (by unfold INT_MIN; omega) rfl (by omega)
    rw [add_sub_cancel_right] at h
    refine ⟨h, ?_⟩
    rw [h, List.length_map, List.length_range]
    omega
  · have h := loopCounterValues_mem_of_lt_INT_MAX M hM fuel 1 (by unfold INT_MIN; omega) t ht
    have h1 : INT_MIN ≤ t := by unfold INT_MIN; omega
    have h2 : t + 1 ≤ INT_MAX := by omega
    exact ⟨h1, h2, wrapInt_of_inRange _ (by omega) h2⟩

/-- Witness of C17 (amended) at `swapMaturity = 5` with fuel 6 on the curve of `main`. -/
theorem loops_exit_after_max_iterations_witness :
    ((∃ v : ℝ, calculateFixedLegPV realMath 6 1000000 0.05 5 0.02 (-0.01) 0.03 (-0.02) 2 10
        = some v) ↔ (5 : Int).toNat < 6) ∧
    ((loopCounterValues 5 6 1).length : Int) = max 5 0 :=
  ⟨(loops_exit_after_max_iterations 1000000 0.05 0.02 (-0.01) 0.03 (-0.02) 2 10 5 6 (by decide)
      (by decide)).1,
    ((loops_exit_after_max_iterations 1000000 0.05 0.02 (-0.01) 0.03 (-0.02) 2 10 5 6
      (by decide) (by decide)).2.2.1 (by decide)).2⟩

/-- C17 as stated fails at `swapMaturity = 2^31 - 1`: after `2^31` evaluations
of the loop condition the body has run `2^31` times, more than `max(swapMaturity, 0)`,
the increment of `t = 2^31 - 1` has left the `int` range and wrapped to `-2^31`,
and the loop has not exited. -/
theorem loop_counter_overflows_INT_MAX :
    (loopCounterValues 2147483647 2147483648 1).length = 2147483648 ∧
    wrapInt (2147483647 + 1) = -2147483648 ∧
    (-2147483648 : Int) ∈ loopCounterValues 2147483647 2147483648 1 ∧
    calculateFixedLegPV realMath 2147483648 1000000 0.05 2147483647 0.02 (-0.01) 0.03 (-0.02) 2 10
      = none := by
  rw [loopCounterValues_eq_map_of_INT_MAX_le 2147483647 (by decide) 2147483648 1 (by decide)
    (by decide)]
  refine ⟨by rw [List.length_map, List.length_range], by decide, ?_, ?_⟩
  · exact List.mem_map.mpr ⟨2147483647, List.mem_range.mpr (by norm_num), by decide⟩
  · exact fixedLegLoop_eq_none_of_INT_MAX_le realMath 1000000 0.05 2147483647 0.02 (-0.01) 0.03
      (-0.02) 2 10 (by decide) 2147483648 1 0 (by decide)

/-- C19: over the reals, for `tau1 > 0`, `tau2 > 0` and any `beta0..beta3`,
`calculateSpotRate(t, ...)` tends to `beta0` as `t` tends to infinity. -/
theorem calculateSpotRate_tendsto_atTop (beta0 beta1 beta2 beta3 tau1 tau2 : ℝ)
    (h1 : 0 < tau1) (h2 : 0 < tau2) :
    Filter.Tendsto (fun t : ℝ => calculateSpotRate realMath t beta0 beta1 beta2 beta3 tau1 tau2)
      Filter.atTop (nhds beta0) := by
  have hg1 := tendsto_g_atTop tau1 h1
  have hg2 := tendsto_g_atTop tau2 h2
  have he1 := tendsto_exp_neg_div_atTop tau1 h1
  have he2 := tendsto_exp_neg_div_atTop tau2 h2
  have h := (((tendsto_const_nhds (x := beta0)).add (hg1.const_mul beta1)).add
    ((hg1.sub he1).const_mul beta2)).add ((hg2.sub he2).const_mul beta3)
  simp only [sub_zero, mul_zero, add_zero] at h
  refine h.congr (fun t => ?_)
  simp only [calculateSpotRate, realMath, mul_div_assoc]

/-- Witness of C19 on the curve of `main`: the spot rate tends to `0.02`. -/
theorem calculateSpotRate_tendsto_atTop_witness :
    Filter.Tendsto (fun t : ℝ => calculateSpotRate realMath t 0.02 (-0.01) 0.03 (-0.02) 2 10)
      Filter.atTop (nhds 0.02) :=
  calculateSpotRate_tendsto_atTop 0.02 (-0.01) 0.03 (-0.02) 2 10 (by norm_num) (by norm_num)

/-- C20: over the reals, for `tau1 > 0`, `tau2 > 0` and any `beta0..beta3`,
`calculateSpotRate(t, ...)` tends to `beta0 + beta1` as `t` tends to 0 from
above, while at `t = 0` itself the divisors `t/tau1` and `t/tau2` are zero. -/
theorem calculateSpotRate_tendsto_zero (beta0 beta1 beta2 beta3 tau1 tau2 : ℝ)
    (h1 : 0 < tau1) (h2 : 0 < tau2) :
    Filter.Tendsto (fun t : ℝ => calculateSpotRate realMath t beta0 beta1 beta2 beta3 tau1 tau2)
      (nhdsWithin 0 (Set.Ioi 0)) (nhds (beta0 + beta1)) ∧
    (0 : ℝ) / tau1 = 0 ∧ (0 : ℝ) / tau2 = 0 := by
  have hg1 := tendsto_g_zero tau1 h1
  have hg2 := tendsto_g_zero tau2 h2
  have he1 := tendsto_exp_neg_div_zero tau1
  have he2 := tendsto_exp_neg_div_zero tau2
  have h := (((tendsto_const_nhds (x := beta0)).add (hg1.const_mul beta1)).add
    ((hg1.sub he1).const_mul beta2)).add ((hg2.sub he2).const_mul beta3)
  simp only [sub_self, mul_zero, add_zero, mul_one] at h
  refine ⟨h.congr (fun t => ?_), zero_div _, zero_div _⟩
  simp only [calculateSpotRate, realMath, mul_div_assoc]

/-- Witness of C20 on the curve of `main`: the spot rate tends to `0.02 + (-0.01)`. -/
theorem calculateSpotRate_tendsto_zero_witness :
    Filter.Tendsto (fun t : ℝ => calculateSpotRate realMath t 0.02 (-0.01) 0.03 (-0.02) 2 10)
      (nhdsWithin 0 (Set.Ioi 0)) (nhds (0.02 + (-0.01))) :=
  (calculateSpotRate_tendsto_zero 0.02 (-0.01) 0.03 (-0.02) 2 10 (by norm_num) (by norm_num)).1

end Swaption
